import Mathlib

/-!
Verification of the CTRV extended Kalman filter
(`src/Extended-Kalman-Filter-CTRV.py`) against its natural-language
specification.  The estimator core of the notebook — the branch selection,
the two prediction branches, the hard-coded motion Jacobian, the
measurement masking by GPS availability and the covariance cycle — is
embedded below over exact real arithmetic, one definition per piece of
source code, and the spec claims are settled as theorems about these
definitions.
-/

open Real Matrix

noncomputable section

namespace CTRV

/-- Prediction interval (source: `dt = 1.0/50.0`). -/
def dt : ℝ := 1.0 / 50.0

/-- Exact-arithmetic model of Python's float `%` operator:
`a % b = a - b * floor (a / b)` (result has the sign of `b`). -/
def pymod (a b : ℝ) : ℝ := a - b * ⌊a / b⌋

/-- Heading wrap used in the turning branch (source line 447):
`(theta + pi) % (2*pi) - pi`. -/
def wrapAngle (theta : ℝ) : ℝ := pymod (theta + Real.pi) (2.0 * Real.pi) - Real.pi

/-- Motion-model branch flag (source lines 412–415).  The comparison is made
on the RAW yaw-rate sample of the current filter step
(`np.abs(yawrate[filterstep]) < 0.0001`), in the units of the data file. -/
def branchFlag (yr : ℝ) : ℕ := if |yr| < 0.0001 then 0 else 1

/-- Process-noise standard deviation for position (source line 163). -/
def sGPSq : ℝ := 0.5 * 8.8 * dt ^ 2

/-- Process-noise standard deviation for heading (source line 164). -/
def sCourse : ℝ := 0.1 * dt

/-- Process-noise standard deviation for velocity (source line 165). -/
def sVelocity : ℝ := 8.8 * dt

/-- Process-noise standard deviation for yaw rate (source line 166). -/
def sYaw : ℝ := 1.0 * dt

/-- Process noise covariance `Q` (source line 168). -/
def Q : Matrix (Fin 5) (Fin 5) ℝ :=
  Matrix.diagonal ![sGPSq ^ 2, sGPSq ^ 2, sCourse ^ 2, sVelocity ^ 2, sYaw ^ 2]

/-- Measurement noise covariance `R` (source lines 279–285):
`diag(sGPS**2, sGPS**2, sspeed**2, syaw**2)` with `sGPS=5.0`, `sspeed=2.0`,
`syaw=0.01`. -/
def R : Matrix (Fin 4) (Fin 4) ℝ :=
  !![5.0 ^ 2, 0.0, 0.0, 0.0;
     0.0, 5.0 ^ 2, 0.0, 0.0;
     0.0, 0.0, 2.0 ^ 2, 0.0;
     0.0, 0.0, 0.0, 0.01 ^ 2]

/-- Measurement Jacobian when a GPS fix is present (source lines 417–420). -/
def JHgps : Matrix (Fin 4) (Fin 5) ℝ :=
  !![1.0, 0.0, 0.0, 0.0, 0.0;
     0.0, 1.0, 0.0, 0.0, 0.0;
     0.0, 0.0, 0.0, 1.0, 0.0;
     0.0, 0.0, 0.0, 0.0, 1.0]

/-- Measurement Jacobian when no GPS fix is present (source lines 422–425):
the position rows are zeroed. -/
def JHno : Matrix (Fin 4) (Fin 5) ℝ :=
  !![0.0, 0.0, 0.0, 0.0, 0.0;
     0.0, 0.0, 0.0, 0.0, 0.0;
     0.0, 0.0, 0.0, 1.0, 0.0;
     0.0, 0.0, 0.0, 0.0, 1.0]

/-- Per-step measurement Jacobian selection (source lines 416–425). -/
def JH (gps : Bool) : Matrix (Fin 4) (Fin 5) ℝ := if gps then JHgps else JHno

/-- State prediction (source lines 437–450).  The branch is chosen by the
raw yaw-rate sample `yr`; the straight-line branch substitutes the fixed
epsilon `0.0000001` for the yaw-rate component, the turning branch applies
the closed-form CTRV integration and wraps the heading. -/
def predictX (yr : ℝ) (x : Fin 5 → ℝ) : Fin 5 → ℝ :=
  if branchFlag yr = 0 then
    ![x 0 + x 3 * dt * Real.cos (x 2),
      x 1 + x 3 * dt * Real.sin (x 2),
      x 2,
      x 3,
      0.0000001]
  else
    ![x 0 + x 3 / x 4 * (Real.sin (x 4 * dt + x 2) - Real.sin (x 2)),
      x 1 + x 3 / x 4 * (-Real.cos (x 4 * dt + x 2) + Real.cos (x 2)),
      wrapAngle (x 2 + x 4 * dt),
      x 3,
      x 4]

/-- Jacobian entry `a13` (source line 454). -/
def a13 (x : Fin 5 → ℝ) : ℝ :=
  x 3 / x 4 * (Real.cos (x 4 * dt + x 2) - Real.cos (x 2))

/-- Jacobian entry `a14` (source line 455). -/
def a14 (x : Fin 5 → ℝ) : ℝ :=
  1.0 / x 4 * (Real.sin (x 4 * dt + x 2) - Real.sin (x 2))

/-- Jacobian entry `a15` (source line 456). -/
def a15 (x : Fin 5 → ℝ) : ℝ :=
  dt * x 3 / x 4 * Real.cos (x 4 * dt + x 2) -
    x 3 / x 4 ^ 2 * (Real.sin (x 4 * dt + x 2) - Real.sin (x 2))

/-- Jacobian entry `a23` (source line 457). -/
def a23 (x : Fin 5 → ℝ) : ℝ :=
  x 3 / x 4 * (Real.sin (x 4 * dt + x 2) - Real.sin (x 2))

/-- Jacobian entry `a24` (source line 458). -/
def a24 (x : Fin 5 → ℝ) : ℝ :=
  1.0 / x 4 * (-Real.cos (x 4 * dt + x 2) + Real.cos (x 2))

/-- Jacobian entry `a25` (source line 459). -/
def a25 (x : Fin 5 → ℝ) : ℝ :=
  dt * x 3 / x 4 * Real.sin (x 4 * dt + x 2) -
    x 3 / x 4 ^ 2 * (-Real.cos (x 4 * dt + x 2) + Real.cos (x 2))

/-- Hard-coded motion Jacobian `JA` (source lines 460–464), evaluated in
the loop at the post-prediction state. -/
def JA (x : Fin 5 → ℝ) : Matrix (Fin 5) (Fin 5) ℝ :=
  !![1.0, 0.0, a13 x, a14 x, a15 x;
     0.0, 1.0, a23 x, a24 x, a25 x;
     0.0, 0.0, 1.0, 0.0, dt;
     0.0, 0.0, 0.0, 1.0, 0.0;
     0.0, 0.0, 0.0, 0.0, 1.0]

/-- Measurement function `hx` (source lines 473–476). -/
def hx (x : Fin 5 → ℝ) : Fin 4 → ℝ := ![x 0, x 1, x 3, x 4]

/-- Covariance prediction `P = JA*P*JA.T + Q` (source line 468). -/
def predictCov (P : Matrix (Fin 5) (Fin 5) ℝ) (xp : Fin 5 → ℝ) :
    Matrix (Fin 5) (Fin 5) ℝ :=
  JA xp * P * (JA xp)ᵀ + Q

/-- Kalman gain `K = (P*JH.T) * inv(S)` with `S = JH*P*JH.T + R`
(source lines 480–481), parameterized by the measurement noise matrix. -/
def kalmanGain (Rn : Matrix (Fin 4) (Fin 4) ℝ) (Pp : Matrix (Fin 5) (Fin 5) ℝ)
    (H : Matrix (Fin 4) (Fin 5) ℝ) : Matrix (Fin 5) (Fin 4) ℝ :=
  Pp * Hᵀ * (H * Pp * Hᵀ + Rn)⁻¹

/-- Covariance correction `P = (I - K*JH)*P` (source line 487). -/
def correctCov (K : Matrix (Fin 5) (Fin 4) ℝ) (H : Matrix (Fin 4) (Fin 5) ℝ)
    (Pp : Matrix (Fin 5) (Fin 5) ℝ) : Matrix (Fin 5) (Fin 5) ℝ :=
  (1 - K * H) * Pp

/-- One measurement sample as consumed by the loop: the raw yaw-rate value
used for branch selection, the GPS trigger, and the 4-dimensional
measurement vector `Z`. -/
structure EKFInput where
  yawrateRaw : ℝ
  gps : Bool
  Z : Fin 4 → ℝ

/-- Estimator state: the 5-dimensional state estimate and its covariance. -/
structure EKFState where
  x : Fin 5 → ℝ
  P : Matrix (Fin 5) (Fin 5) ℝ

/-- One CSV output row (source lines 429–430):
`x0,x1,x2,x3,x4,z0,z1,z2,z3,dstate,gps`. -/
structure EKFRecord where
  x : Fin 5 → ℝ
  Z : Fin 4 → ℝ
  dstate : ℕ
  gps : Bool

/-- One iteration of the filter loop (source lines 410–507), parameterized
by the measurement noise matrix `Rn`.  The output row is written before the
time update, exactly as in the source. -/
def stepR (Rn : Matrix (Fin 4) (Fin 4) ℝ) (s : EKFState) (inp : EKFInput) :
    EKFState × EKFRecord :=
  let row : EKFRecord := ⟨s.x, inp.Z, branchFlag inp.yawrateRaw, inp.gps⟩
  let xp := predictX inp.yawrateRaw s.x
  let Pp := predictCov s.P xp
  let H := JH inp.gps
  let K := kalmanGain Rn Pp H
  let y := fun j => inp.Z j - hx xp j
  ⟨⟨fun i => xp i + K.mulVec y i, correctCov K H Pp⟩, row⟩

/-- One iteration of the filter loop with the configured `R`. -/
def step (s : EKFState) (inp : EKFInput) : EKFState × EKFRecord := stepR R s inp

/-- The filter loop: the final state together with the emitted output rows,
parameterized by the measurement noise matrix. -/
def runR (Rn : Matrix (Fin 4) (Fin 4) ℝ) :
    EKFState → List EKFInput → EKFState × List EKFRecord
  | s, [] => (s, [])
  | s, inp :: rest =>
    let sr := stepR Rn s inp
    let fr := runR Rn sr.1 rest
    (fr.1, sr.2 :: fr.2)

/-- The filter loop with the configured `R`. -/
def run (s : EKFState) (l : List EKFInput) : EKFState × List EKFRecord :=
  runR R s l

/-- Initial covariance (source line 124): `diag(1000, ..., 1000)`. -/
def P0 : Matrix (Fin 5) (Fin 5) ℝ :=
  Matrix.diagonal ![1000.0, 1000.0, 1000.0, 1000.0, 1000.0]

/-- Symbolic dynamic matrix `gs` (source lines 77–81), the CTRV motion model
whose Jacobian the loop hard-codes. -/
def gs (q : Fin 5 → ℝ) : Fin 5 → ℝ :=
  ![q 0 + q 3 / q 4 * (Real.sin (q 2 + q 4 * dt) - Real.sin (q 2)),
    q 1 + q 3 / q 4 * (-Real.cos (q 2 + q 4 * dt) + Real.cos (q 2)),
    q 2 + q 4 * dt,
    q 3,
    q 4]

/-- Default output row, used only as the fallback of list indexing. -/
def noRecord : EKFRecord := ⟨fun _ => 0, fun _ => 0, 0, false⟩

/-- Default input sample, used only as the fallback of list indexing. -/
def noInput : EKFInput := ⟨0, false, fun _ => 0⟩

/-! ### Basic lemmas about the branch flag and the heading wrap -/

lemma branchFlag_eq_zero_iff (yr : ℝ) : branchFlag yr = 0 ↔ |yr| < 0.0001 := by
  unfold branchFlag
  split_ifs with h <;> simp [h]

lemma pymod_eq_mul_fract (a b : ℝ) (hb : b ≠ 0) :
    pymod a b = b * Int.fract (a / b) := by
  unfold pymod Int.fract
  field_simp

lemma pymod_nonneg (a b : ℝ) (hb : 0 < b) : 0 ≤ pymod a b := by
  rw [pymod_eq_mul_fract a b hb.ne']
  exact mul_nonneg hb.le (Int.fract_nonneg _)

lemma pymod_lt (a b : ℝ) (hb : 0 < b) : pymod a b < b := by
  rw [pymod_eq_mul_fract a b hb.ne']
  calc b * Int.fract (a / b) < b * 1 :=
        (mul_lt_mul_left hb).mpr (Int.fract_lt_one _)
    _ = b := mul_one b

lemma wrapAngle_mem_Ico (theta : ℝ) :
    wrapAngle theta ∈ Set.Ico (-Real.pi) Real.pi := by
  have h2 : (0 : ℝ) < 2.0 * Real.pi := by positivity
  have hlo := pymod_nonneg (theta + Real.pi) (2.0 * Real.pi) h2
  have hhi := pymod_lt (theta + Real.pi) (2.0 * Real.pi) h2
  have h20 : (2.0 : ℝ) = 2 := by norm_num
  rw [h20] at hhi
  constructor
  · unfold wrapAngle
    linarith
  · unfold wrapAngle
    linarith

/-! ### C1: which yaw rate selects the motion-model branch -/

/-- C1 (counterexample): the claim says the straight-line branch is taken
exactly when the absolute value of the STATE estimate's yaw-rate component
is below the threshold.  In the code the test reads the raw measured
yaw-rate sample instead: here the state's yaw rate is `1` (far above the
threshold), the measured sample is `0`, and the straight-line branch is
taken anyway. -/
theorem C1_counterexample :
    (stepR R ⟨![0, 0, 0, 0, 1], P0⟩ ⟨0, false, ![0, 0, 0, 0]⟩).2.dstate = 0 ∧
      ¬ |(⟨![0, 0, 0, 0, 1], P0⟩ : EKFState).x 4| < 0.0001 := by
  constructor
  · show branchFlag 0 = 0
    norm_num [branchFlag]
  · show ¬ |(![0, 0, 0, 0, 1] : Fin 5 → ℝ) 4| < 0.0001
    simp
    norm_num

/-- C1 (amended): for every filter step, the motion-model branch is selected
by comparing the absolute value of the step's RAW measured yaw-rate sample
(in the data file's units) against the fixed threshold `0.0001`; the
straight-line branch is taken exactly when that absolute value is below the
threshold, independently of the state estimate's yaw-rate component. -/
theorem C1_branch_selected_by_measured_yawrate (s : EKFState) (inp : EKFInput) :
    (stepR R s inp).2.dstate = 0 ↔ |inp.yawrateRaw| < 0.0001 := by
  show branchFlag inp.yawrateRaw = 0 ↔ |inp.yawrateRaw| < 0.0001
  exact branchFlag_eq_zero_iff _

/-! ### C2: the straight-line branch formulas -/

/-- C2 (confirmed): on the straight-line branch the prediction advances the
position by `v*dt*cos(psi)` and `v*dt*sin(psi)`, leaves heading and velocity
unchanged, and forces the yaw-rate component to the fixed nonzero epsilon
`0.0000001`. -/
theorem C2_straight_branch_formulas (yr : ℝ) (x : Fin 5 → ℝ)
    (h : branchFlag yr = 0) :
    predictX yr x 0 = x 0 + x 3 * dt * Real.cos (x 2) ∧
    predictX yr x 1 = x 1 + x 3 * dt * Real.sin (x 2) ∧
    predictX yr x 2 = x 2 ∧
    predictX yr x 3 = x 3 ∧
    predictX yr x 4 = 0.0000001 ∧ (0.0000001 : ℝ) ≠ 0 := by
  simp only [predictX, if_pos h]
  refine ⟨by simp, by simp, by simp, by simp, by simp, by norm_num⟩

/-- C2 (witness): the straight-line branch theorem instantiated at a
concrete state and a measured yaw rate of `0`. -/
theorem C2_straight_branch_formulas_witness :
    branchFlag 0 = 0 ∧
      (predictX 0 ![1, 2, 0, 3, 5] 0 =
          (![1, 2, 0, 3, 5] : Fin 5 → ℝ) 0 +
            (![1, 2, 0, 3, 5] : Fin 5 → ℝ) 3 * dt *
              Real.cos ((![1, 2, 0, 3, 5] : Fin 5 → ℝ) 2) ∧
        predictX 0 ![1, 2, 0, 3, 5] 1 =
          (![1, 2, 0, 3, 5] : Fin 5 → ℝ) 1 +
            (![1, 2, 0, 3, 5] : Fin 5 → ℝ) 3 * dt *
              Real.sin ((![1, 2, 0, 3, 5] : Fin 5 → ℝ) 2) ∧
        predictX 0 ![1, 2, 0, 3, 5] 2 = (![1, 2, 0, 3, 5] : Fin 5 → ℝ) 2 ∧
        predictX 0 ![1, 2, 0, 3, 5] 3 = (![1, 2, 0, 3, 5] : Fin 5 → ℝ) 3 ∧
        predictX 0 ![1, 2, 0, 3, 5] 4 = 0.0000001 ∧ (0.0000001 : ℝ) ≠ 0) :=
  ⟨by norm_num [branchFlag],
    C2_straight_branch_formulas 0 ![1, 2, 0, 3, 5] (by norm_num [branchFlag])⟩

/-! ### C3: the turning branch formulas -/

/-- C3 (confirmed): on the turning branch the prediction applies the
closed-form CTRV integration to the position, wraps the heading, and leaves
velocity and yaw rate unchanged. -/
theorem C3_turning_branch_formulas (yr : ℝ) (x : Fin 5 → ℝ)
    (h : branchFlag yr ≠ 0) :
    predictX yr x 0 =
      x 0 + x 3 / x 4 * (Real.sin (x 4 * dt + x 2) - Real.sin (x 2)) ∧
    predictX yr x 1 =
      x 1 + x 3 / x 4 * (-Real.cos (x 4 * dt + x 2) + Real.cos (x 2)) ∧
    predictX yr x 2 = wrapAngle (x 2 + x 4 * dt) ∧
    predictX yr x 3 = x 3 ∧
    predictX yr x 4 = x 4 := by
  simp only [predictX, if_neg h]
  refine ⟨by simp, by simp, by simp, by simp, by simp⟩

/-- C3 (witness): the turning branch theorem instantiated at a concrete
state and a measured yaw rate of `1`. -/
theorem C3_turning_branch_formulas_witness :
    branchFlag 1 ≠ 0 ∧
      (predictX 1 ![1, 2, 0, 3, 5] 0 =
          (![1, 2, 0, 3, 5] : Fin 5 → ℝ) 0 +
            (![1, 2, 0, 3, 5] : Fin 5 → ℝ) 3 / (![1, 2, 0, 3, 5] : Fin 5 → ℝ) 4 *
              (Real.sin ((![1, 2, 0, 3, 5] : Fin 5 → ℝ) 4 * dt +
                    (![1, 2, 0, 3, 5] : Fin 5 → ℝ) 2) -
                Real.sin ((![1, 2, 0, 3, 5] : Fin 5 → ℝ) 2)) ∧
        predictX 1 ![1, 2, 0, 3, 5] 1 =
          (![1, 2, 0, 3, 5] : Fin 5 → ℝ) 1 +
            (![1, 2, 0, 3, 5] : Fin 5 → ℝ) 3 / (![1, 2, 0, 3, 5] : Fin 5 → ℝ) 4 *
              (-Real.cos ((![1, 2, 0, 3, 5] : Fin 5 → ℝ) 4 * dt +
                    (![1, 2, 0, 3, 5] : Fin 5 → ℝ) 2) +
                Real.cos ((![1, 2, 0, 3, 5] : Fin 5 → ℝ) 2)) ∧
        predictX 1 ![1, 2, 0, 3, 5] 2 =
          wrapAngle ((![1, 2, 0, 3, 5] : Fin 5 → ℝ) 2 +
            (![1, 2, 0, 3, 5] : Fin 5 → ℝ) 4 * dt) ∧
        predictX 1 ![1, 2, 0, 3, 5] 3 = (![1, 2, 0, 3, 5] : Fin 5 → ℝ) 3 ∧
        predictX 1 ![1, 2, 0, 3, 5] 4 = (![1, 2, 0, 3, 5] : Fin 5 → ℝ) 4) :=
  ⟨by norm_num [branchFlag],
    C3_turning_branch_formulas 1 ![1, 2, 0, 3, 5] (by norm_num [branchFlag])⟩

/-! ### C6: heading range after prediction -/

lemma wrapAngle_pi : wrapAngle Real.pi = -Real.pi := by
  have hpi := Real.pi_pos
  have hb : (2.0 : ℝ) * Real.pi ≠ 0 := by positivity
  unfold wrapAngle pymod
  have harg : (Real.pi + Real.pi) / (2.0 * Real.pi) = 1 := by
    rw [div_eq_one_iff_eq hb]
    ring_nf
  rw [harg]
  norm_num
  ring_nf

/-- C6 (counterexample): the claim says the heading lies in `(-pi, pi]`
after every prediction, on both branches.  The straight-line branch does
not wrap at all (a heading of `4` stays `4`, outside any wrap interval),
and the turning-branch wrap lands in `[-pi, pi)`: from heading `0` with
state yaw rate `50*pi` the wrapped heading is exactly `-pi`, which is not
in `(-pi, pi]`. -/
theorem C6_counterexample :
    predictX 0 ![0, 0, 4, 0, 0] 2 = 4 ∧
      (4 : ℝ) ∉ Set.Ioc (-Real.pi) Real.pi ∧
      predictX 1 ![0, 0, 0, 0, 50 * Real.pi] 2 = -Real.pi ∧
      -Real.pi ∉ Set.Ioc (-Real.pi) Real.pi := by
  have hpi := Real.pi_pos
  refine ⟨?_, ?_, ?_, ?_⟩
  · have h0 : branchFlag 0 = 0 := by norm_num [branchFlag]
    simp [predictX, h0]
  · simp only [Set.mem_Ioc, not_and, not_le]
    intro _
    have := Real.pi_lt_d2
    linarith
  · have h1 : branchFlag 1 ≠ 0 := by norm_num [branchFlag]
    simp only [predictX, if_neg h1]
    simp
    rw [show (50 : ℝ) * Real.pi * dt = Real.pi from by rw [dt]; ring_nf]
    exact wrapAngle_pi
  · simp

/-- C6 (amended): after every turning-branch prediction the heading lies in
the interval `[-pi, pi)`; the straight-line branch leaves the heading
unchanged (no wrap is applied there). -/
theorem C6_heading_range (yr : ℝ) (x : Fin 5 → ℝ) :
    (branchFlag yr ≠ 0 → predictX yr x 2 ∈ Set.Ico (-Real.pi) Real.pi) ∧
      (branchFlag yr = 0 → predictX yr x 2 = x 2) := by
  constructor
  · intro h
    simp only [predictX, if_neg h]
    simp only [Matrix.cons_val_two, Matrix.tail_cons, Matrix.head_cons]
    exact wrapAngle_mem_Ico _
  · intro h
    simp [predictX, if_pos h]

/-- C6 (witness): the amended heading-range theorem instantiated on both
branches at concrete inputs. -/
theorem C6_heading_range_witness :
    (branchFlag 1 ≠ 0 ∧
        predictX 1 ![0, 0, 1, 1, 1] 2 ∈ Set.Ico (-Real.pi) Real.pi) ∧
      (branchFlag 0 = 0 ∧
        predictX 0 ![0, 0, 1, 1, 1] 2 = (![0, 0, 1, 1, 1] : Fin 5 → ℝ) 2) :=
  ⟨⟨by norm_num [branchFlag],
      (C6_heading_range 1 ![0, 0, 1, 1, 1]).1 (by norm_num [branchFlag])⟩,
    ⟨by norm_num [branchFlag],
      (C6_heading_range 0 ![0, 0, 1, 1, 1]).2 (by norm_num [branchFlag])⟩⟩

/-! ### C5: divisions by the yaw-rate component -/

/-- C5 (amended): the motion Jacobian of a step is evaluated at the
post-prediction state, whose yaw-rate component equals the nonzero epsilon
`0.0000001` whenever the straight-line branch was taken in that step; on
the turning branch the prediction divides by the entering state's yaw-rate
component, which survives unchanged, so it is nonzero provided the entering
yaw rate was nonzero. -/
theorem C5_division_guard (yr : ℝ) (x : Fin 5 → ℝ) :
    (branchFlag yr = 0 →
        predictX yr x 4 = 0.0000001 ∧ (0.0000001 : ℝ) ≠ 0) ∧
      (branchFlag yr ≠ 0 → predictX yr x 4 = x 4) ∧
      (x 4 ≠ 0 → predictX yr x 4 ≠ 0) := by
  refine ⟨?_, ?_, ?_⟩
  · intro h
    constructor
    · simp [predictX, if_pos h]
    · norm_num
  · intro h
    simp [predictX, if_neg h]
  · intro hx
    by_cases h : branchFlag yr = 0
    · simp only [predictX, if_pos h]
      simp
      norm_num
    · simp only [predictX, if_neg h]
      simpa using hx

/-! ### Positive semidefiniteness machinery for the covariance cycle -/

lemma psd_diag_nonneg {n : ℕ} {M : Matrix (Fin n) (Fin n) ℝ} (h : M.PosSemidef)
    (i : Fin n) : 0 ≤ M i i := by
  have h2 := h.2 (Pi.single i 1)
  simpa [Matrix.mulVec_single, Matrix.single_dotProduct] using h2

lemma psd_transpose_eq {n : ℕ} {M : Matrix (Fin n) (Fin n) ℝ}
    (h : M.PosSemidef) : Mᵀ = M := by
  have h1 := h.1
  rwa [Matrix.IsHermitian, Matrix.conjTranspose_eq_transpose_of_trivial] at h1

lemma Q_posSemidef : Q.PosSemidef := by
  apply Matrix.PosSemidef.diagonal
  intro i
  simp only [Pi.zero_apply]
  fin_cases i <;> simp [Matrix.vecHead, Matrix.vecTail] <;> positivity

lemma R_posDef : R.PosDef := by
  have hR : R = Matrix.diagonal ![5.0 ^ 2, 5.0 ^ 2, 2.0 ^ 2, 0.01 ^ 2] := by
    ext i j
    fin_cases i <;> fin_cases j <;>
      simp +decide [R, Matrix.diagonal_apply, Matrix.vecHead, Matrix.vecTail] <;> norm_num
  rw [hR, Matrix.posDef_diagonal_iff]
  intro i
  fin_cases i <;> simp [Matrix.vecHead, Matrix.vecTail] <;> norm_num

lemma P0_posSemidef : P0.PosSemidef := by
  apply Matrix.PosSemidef.diagonal
  intro i
  simp only [Pi.zero_apply]
  fin_cases i <;> simp [Matrix.vecHead, Matrix.vecTail] <;> norm_num

lemma predictCov_posSemidef (P : Matrix (Fin 5) (Fin 5) ℝ) (xp : Fin 5 → ℝ)
    (hP : P.PosSemidef) : (predictCov P xp).PosSemidef := by
  unfold predictCov
  have h1 := hP.mul_mul_conjTranspose_same (JA xp)
  rw [Matrix.conjTranspose_eq_transpose_of_trivial] at h1
  exact h1.add Q_posSemidef

/-- Joseph-form identity: with the optimal gain, the corrected covariance
`(I - K*H)*P` equals `(I - K*H)*P*(I - K*H)^T + K*R*K^T`, hence it is
positive semidefinite whenever `P` is positive semidefinite and `R` is
positive definite. -/
lemma correctCov_posSemidef (Pp : Matrix (Fin 5) (Fin 5) ℝ)
    (H : Matrix (Fin 4) (Fin 5) ℝ) (Rn : Matrix (Fin 4) (Fin 4) ℝ)
    (hP : Pp.PosSemidef) (hR : Rn.PosDef) :
    (correctCov (kalmanGain Rn Pp H) H Pp).PosSemidef := by
  set S := H * Pp * Hᵀ + Rn with hSdef
  have hHP := hP.mul_mul_conjTranspose_same H
  rw [Matrix.conjTranspose_eq_transpose_of_trivial] at hHP
  have hS : S.PosDef := Matrix.PosDef.posSemidef_add hHP hR
  have hdet : IsUnit S.det := hS.det_pos.ne'.isUnit
  set K := kalmanGain Rn Pp H with hKdef
  have hKS : K * S = Pp * Hᵀ := by
    rw [hKdef, kalmanGain, ← hSdef, Matrix.mul_assoc, Matrix.nonsing_inv_mul S hdet,
      Matrix.mul_one]
  have hexp : K * (H * (Pp * (Hᵀ * Kᵀ))) + K * (Rn * Kᵀ) = Pp * (Hᵀ * Kᵀ) := by
    have h1 : K * S * Kᵀ = Pp * Hᵀ * Kᵀ := by rw [hKS]
    rw [hSdef] at h1
    simp only [Matrix.mul_add, Matrix.add_mul, Matrix.mul_assoc] at h1
    exact h1
  have key : correctCov K H Pp
      = (1 - K * H) * Pp * (1 - K * H)ᵀ + K * Rn * Kᵀ := by
    rw [correctCov]
    rw [Matrix.transpose_sub, Matrix.transpose_one, Matrix.transpose_mul]
    rw [Matrix.sub_mul, Matrix.one_mul, Matrix.mul_sub, Matrix.mul_one, Matrix.sub_mul]
    simp only [Matrix.mul_assoc]
    have hc : Pp * (Hᵀ * Kᵀ) - K * (H * (Pp * (Hᵀ * Kᵀ))) = K * (Rn * Kᵀ) := by
      rw [sub_eq_iff_eq_add]
      conv_lhs => rw [← hexp]
      abel
    rw [hc]
    abel
  rw [key]
  have h1 := hP.mul_mul_conjTranspose_same (1 - K * H)
  rw [Matrix.conjTranspose_eq_transpose_of_trivial] at h1
  have h2 := hR.posSemidef.mul_mul_conjTranspose_same K
  rw [Matrix.conjTranspose_eq_transpose_of_trivial] at h2
  exact h1.add h2

lemma step_P_posSemidef (s : EKFState) (inp : EKFInput) (hP : s.P.PosSemidef) :
    ((stepR R s inp).1.P).PosSemidef := by
  show (correctCov
      (kalmanGain R (predictCov s.P (predictX inp.yawrateRaw s.x)) (JH inp.gps))
      (JH inp.gps) (predictCov s.P (predictX inp.yawrateRaw s.x))).PosSemidef
  exact correctCov_posSemidef _ _ _ (predictCov_posSemidef _ _ hP) R_posDef

lemma run_P_posSemidef (l : List EKFInput) (s : EKFState) (hP : s.P.PosSemidef) :
    ((runR R s l).1.P).PosSemidef := by
  induction l generalizing s with
  | nil => exact hP
  | cons inp rest ih =>
    show ((runR R (stepR R s inp).1 rest).1.P).PosSemidef
    exact ih _ (step_P_posSemidef s inp hP)

/-! ### C7: per-step covariance symmetry and non-negative diagonal -/

/-- C7 (confirmed): starting from any initial covariance that is symmetric
positive semidefinite, at every step `k` of the filter loop both the
predicted covariance `JA*P*JA^T + Q` and the corrected covariance
`(I - K*JH)*P` are symmetric with non-negative diagonal entries, in exact
arithmetic, with no post-hoc symmetrization anywhere in the cycle. -/
theorem C7_covariance_invariants (init : EKFState) (l : List EKFInput)
    (hP : init.P.PosSemidef) (k : ℕ) :
    let s := (runR R init (List.take k l)).1
    let inp := l.getD k noInput
    let Pp := predictCov s.P (predictX inp.yawrateRaw s.x)
    let Pc := (stepR R s inp).1.P
    (Ppᵀ = Pp ∧ ∀ i, 0 ≤ Pp i i) ∧ (Pcᵀ = Pc ∧ ∀ i, 0 ≤ Pc i i) := by
  intro s inp Pp Pc
  have hs : s.P.PosSemidef := run_P_posSemidef _ _ hP
  have hPp : Pp.PosSemidef := predictCov_posSemidef _ _ hs
  have hPc : Pc.PosSemidef := step_P_posSemidef _ _ hs
  exact ⟨⟨psd_transpose_eq hPp, psd_diag_nonneg hPp⟩,
    ⟨psd_transpose_eq hPc, psd_diag_nonneg hPc⟩⟩

/-- C7 (witness): the covariance-invariant theorem instantiated at the
notebook's initial covariance `P0` and a one-sample input list. -/
theorem C7_covariance_invariants_witness :
    P0.PosSemidef ∧
      (let s := (runR R ⟨![0, 0, 0, 0, 0], P0⟩ (List.take 0 [noInput])).1
       let inp := [noInput].getD 0 noInput
       let Pp := predictCov s.P (predictX inp.yawrateRaw s.x)
       let Pc := (stepR R s inp).1.P
       (Ppᵀ = Pp ∧ ∀ i, 0 ≤ Pp i i) ∧ (Pcᵀ = Pc ∧ ∀ i, 0 ≤ Pc i i)) :=
  ⟨P0_posSemidef,
    C7_covariance_invariants ⟨![0, 0, 0, 0, 0], P0⟩ [noInput] P0_posSemidef 0⟩

/-! ### C4: the hard-coded Jacobian equals the analytic derivative matrix -/

/-- C4 (confirmed): at every state with nonzero yaw rate — which is how the
loop evaluates it, at the post-prediction state where the straight-line
branch has already substituted the nonzero epsilon — every entry of the
hard-coded matrix `JA` is the partial derivative of the corresponding
component of the CTRV motion model `gs` with respect to the corresponding
state variable.  In particular the matrix is the identity plus the six
position partials and the `dt` entry at row `psi`, column `psi_dot`. -/
theorem C4_jacobian_matches_derivatives (q : Fin 5 → ℝ) (hq : q 4 ≠ 0)
    (i j : Fin 5) :
    HasDerivAt (fun t => gs (Function.update q j t) i) (JA q i j) (q j) := by
  have hid : ∀ a b : ℝ, HasDerivAt (fun t : ℝ => t + a * b) 1 (q 2) := by
    intro a b
    simpa using (hasDerivAt_id (q 2)).add_const (a * b)
  have hlin : HasDerivAt (fun t : ℝ => q 2 + t * dt) dt (q 4) := by
    simpa using ((hasDerivAt_id (q 4)).mul_const dt).const_add (q 2)
  fin_cases i <;> fin_cases j
  · -- row x, column x
    show HasDerivAt (fun t => gs (Function.update q 0 t) 0) (JA q 0 0) (q 0)
    have e : (fun t => gs (Function.update q 0 t) 0)
        = fun t => t + q 3 / q 4 * (Real.sin (q 2 + q 4 * dt) - Real.sin (q 2)) := by
      funext t
      simp [gs]
    rw [e]
    have hd := (hasDerivAt_id (q 0)).add_const
      (q 3 / q 4 * (Real.sin (q 2 + q 4 * dt) - Real.sin (q 2)))
    convert hd using 1
    norm_num [JA, Matrix.vecHead, Matrix.vecTail]
  · -- row x, column y
    show HasDerivAt (fun t => gs (Function.update q 1 t) 0) (JA q 0 1) (q 1)
    have e : (fun t => gs (Function.update q 1 t) 0)
        = fun _ => q 0 + q 3 / q 4 * (Real.sin (q 2 + q 4 * dt) - Real.sin (q 2)) := by
      funext t
      simp [gs]
    rw [e]
    convert hasDerivAt_const (q 1)
      (q 0 + q 3 / q 4 * (Real.sin (q 2 + q 4 * dt) - Real.sin (q 2))) using 1
    norm_num [JA, Matrix.vecHead, Matrix.vecTail]
  · -- row x, column psi
    show HasDerivAt (fun t => gs (Function.update q 2 t) 0) (JA q 0 2) (q 2)
    have e : (fun t => gs (Function.update q 2 t) 0)
        = fun t => q 0 + q 3 / q 4 * (Real.sin (t + q 4 * dt) - Real.sin t) := by
      funext t
      simp [gs]
    rw [e]
    have hd := ((((hid (q 4) dt).sin).sub (Real.hasDerivAt_sin (q 2))).const_mul
      (q 3 / q 4)).const_add (q 0)
    convert hd using 1
    show a13 q = _
    rw [a13]
    ring_nf
  · -- row x, column v
    show HasDerivAt (fun t => gs (Function.update q 3 t) 0) (JA q 0 3) (q 3)
    have e : (fun t => gs (Function.update q 3 t) 0)
        = fun t => q 0 + t * ((q 4)⁻¹ * (Real.sin (q 2 + q 4 * dt) - Real.sin (q 2))) := by
      funext t
      simp [gs, div_eq_mul_inv]
      ring
    rw [e]
    have hd := ((hasDerivAt_id (q 3)).mul_const
      ((q 4)⁻¹ * (Real.sin (q 2 + q 4 * dt) - Real.sin (q 2)))).const_add (q 0)
    convert hd using 1
    show a14 q = _
    rw [a14, add_comm (q 4 * dt) (q 2)]
    field_simp
    norm_num
  · -- row x, column psi_dot
    show HasDerivAt (fun t => gs (Function.update q 4 t) 0) (JA q 0 4) (q 4)
    have e : (fun t => gs (Function.update q 4 t) 0)
        = fun t => q 0 + q 3 * t⁻¹ * (Real.sin (q 2 + t * dt) - Real.sin (q 2)) := by
      funext t
      simp [gs, div_eq_mul_inv]
    rw [e]
    have hf1 : HasDerivAt (fun t : ℝ => q 3 * t⁻¹) (q 3 * (-(q 4 ^ 2)⁻¹)) (q 4) :=
      (hasDerivAt_inv hq).const_mul (q 3)
    have hf2 : HasDerivAt (fun t : ℝ => Real.sin (q 2 + t * dt) - Real.sin (q 2))
        (Real.cos (q 2 + q 4 * dt) * dt) (q 4) := (hlin.sin).sub_const (Real.sin (q 2))
    have hd := (hf1.mul hf2).const_add (q 0)
    convert hd using 1
    show a15 q = _
    rw [a15, add_comm (q 4 * dt) (q 2)]
    field_simp
    ring
  · -- row y, column x
    show HasDerivAt (fun t => gs (Function.update q 0 t) 1) (JA q 1 0) (q 0)
    have e : (fun t => gs (Function.update q 0 t) 1)
        = fun _ => q 1 + q 3 / q 4 * (-Real.cos (q 2 + q 4 * dt) + Real.cos (q 2)) := by
      funext t
      simp [gs]
    rw [e]
    convert hasDerivAt_const (q 0)
      (q 1 + q 3 / q 4 * (-Real.cos (q 2 + q 4 * dt) + Real.cos (q 2))) using 1
    norm_num [JA, Matrix.vecHead, Matrix.vecTail]
  · -- row y, column y
    show HasDerivAt (fun t => gs (Function.update q 1 t) 1) (JA q 1 1) (q 1)
    have e : (fun t => gs (Function.update q 1 t) 1)
        = fun t => t + q 3 / q 4 * (-Real.cos (q 2 + q 4 * dt) + Real.cos (q 2)) := by
      funext t
      simp [gs]
    rw [e]
    have hd := (hasDerivAt_id (q 1)).add_const
      (q 3 / q 4 * (-Real.cos (q 2 + q 4 * dt) + Real.cos (q 2)))
    convert hd using 1
    norm_num [JA, Matrix.vecHead, Matrix.vecTail]
  · -- row y, column psi
    show HasDerivAt (fun t => gs (Function.update q 2 t) 1) (JA q 1 2) (q 2)
    have e : (fun t => gs (Function.update q 2 t) 1)
        = fun t => q 1 + q 3 / q 4 * (-Real.cos (t + q 4 * dt) + Real.cos t) := by
      funext t
      simp [gs]
    rw [e]
    have hd := (((((hid (q 4) dt).cos).neg).add (Real.hasDerivAt_cos (q 2))).const_mul
      (q 3 / q 4)).const_add (q 1)
    convert hd using 1
    show a23 q = _
    rw [a23]
    ring_nf
  · -- row y, column v
    show HasDerivAt (fun t => gs (Function.update q 3 t) 1) (JA q 1 3) (q 3)
    have e : (fun t => gs (Function.update q 3 t) 1)
        = fun t => q 1 + t * ((q 4)⁻¹ * (-Real.cos (q 2 + q 4 * dt) + Real.cos (q 2))) := by
      funext t
      simp [gs, div_eq_mul_inv]
      ring
    rw [e]
    have hd := ((hasDerivAt_id (q 3)).mul_const
      ((q 4)⁻¹ * (-Real.cos (q 2 + q 4 * dt) + Real.cos (q 2)))).const_add (q 1)
    convert hd using 1
    show a24 q = _
    rw [a24, add_comm (q 4 * dt) (q 2)]
    field_simp
    norm_num
  · -- row y, column psi_dot
    show HasDerivAt (fun t => gs (Function.update q 4 t) 1) (JA q 1 4) (q 4)
    have e : (fun t => gs (Function.update q 4 t) 1)
        = fun t => q 1 + q 3 * t⁻¹ * (-Real.cos (q 2 + t * dt) + Real.cos (q 2)) := by
      funext t
      simp [gs, div_eq_mul_inv]
    rw [e]
    have hf1 : HasDerivAt (fun t : ℝ => q 3 * t⁻¹) (q 3 * (-(q 4 ^ 2)⁻¹)) (q 4) :=
      (hasDerivAt_inv hq).const_mul (q 3)
    have hf2 : HasDerivAt (fun t : ℝ => -Real.cos (q 2 + t * dt) + Real.cos (q 2))
        (-(-Real.sin (q 2 + q 4 * dt) * dt)) (q 4) :=
      ((hlin.cos).neg).add_const (Real.cos (q 2))
    have hd := (hf1.mul hf2).const_add (q 1)
    convert hd using 1
    show a25 q = _
    rw [a25, add_comm (q 4 * dt) (q 2)]
    field_simp
    ring
  · -- row psi, column x
    show HasDerivAt (fun t => gs (Function.update q 0 t) 2) (JA q 2 0) (q 0)
    have e : (fun t => gs (Function.update q 0 t) 2) = fun _ => q 2 + q 4 * dt := by
      funext t
      simp [gs]
    rw [e]
    convert hasDerivAt_const (q 0) (q 2 + q 4 * dt) using 1
    norm_num [JA, Matrix.vecHead, Matrix.vecTail]
  · -- row psi, column y
    show HasDerivAt (fun t => gs (Function.update q 1 t) 2) (JA q 2 1) (q 1)
    have e : (fun t => gs (Function.update q 1 t) 2) = fun _ => q 2 + q 4 * dt := by
      funext t
      simp [gs]
    rw [e]
    convert hasDerivAt_const (q 1) (q 2 + q 4 * dt) using 1
    norm_num [JA, Matrix.vecHead, Matrix.vecTail]
  · -- row psi, column psi
    show HasDerivAt (fun t => gs (Function.update q 2 t) 2) (JA q 2 2) (q 2)
    have e : (fun t => gs (Function.update q 2 t) 2) = fun t => t + q 4 * dt := by
      funext t
      simp [gs]
    rw [e]
    convert (hasDerivAt_id (q 2)).add_const (q 4 * dt) using 1
    norm_num [JA, Matrix.vecHead, Matrix.vecTail]
  · -- row psi, column v
    show HasDerivAt (fun t => gs (Function.update q 3 t) 2) (JA q 2 3) (q 3)
    have e : (fun t => gs (Function.update q 3 t) 2) = fun _ => q 2 + q 4 * dt := by
      funext t
      simp [gs]
    rw [e]
    convert hasDerivAt_const (q 3) (q 2 + q 4 * dt) using 1
    norm_num [JA, Matrix.vecHead, Matrix.vecTail]
  · -- row psi, column psi_dot
    show HasDerivAt (fun t => gs (Function.update q 4 t) 2) (JA q 2 4) (q 4)
    have e : (fun t => gs (Function.update q 4 t) 2) = fun t => q 2 + t * dt := by
      funext t
      simp [gs]
    rw [e]
    exact hlin
  · -- row v, column x
    show HasDerivAt (fun t => gs (Function.update q 0 t) 3) (JA q 3 0) (q 0)
    have e : (fun t => gs (Function.update q 0 t) 3) = fun _ => q 3 := by
      funext t
      simp [gs]
    rw [e]
    convert hasDerivAt_const (q 0) (q 3) using 1
    norm_num [JA, Matrix.vecHead, Matrix.vecTail]
  · -- row v, column y
    show HasDerivAt (fun t => gs (Function.update q 1 t) 3) (JA q 3 1) (q 1)
    have e : (fun t => gs (Function.update q 1 t) 3) = fun _ => q 3 := by
      funext t
      simp [gs]
    rw [e]
    convert hasDerivAt_const (q 1) (q 3) using 1
    norm_num [JA, Matrix.vecHead, Matrix.vecTail]
  · -- row v, column psi
    show HasDerivAt (fun t => gs (Function.update q 2 t) 3) (JA q 3 2) (q 2)
    have e : (fun t => gs (Function.update q 2 t) 3) = fun _ => q 3 := by
      funext t
      simp [gs]
    rw [e]
    convert hasDerivAt_const (q 2) (q 3) using 1
    norm_num [JA, Matrix.vecHead, Matrix.vecTail]
  · -- row v, column v
    show HasDerivAt (fun t => gs (Function.update q 3 t) 3) (JA q 3 3) (q 3)
    have e : (fun t => gs (Function.update q 3 t) 3) = fun t => t := by
      funext t
      simp [gs]
    rw [e]
    convert hasDerivAt_id (q 3) using 1
    norm_num [JA, Matrix.vecHead, Matrix.vecTail]
  · -- row v, column psi_dot
    show HasDerivAt (fun t => gs (Function.update q 4 t) 3) (JA q 3 4) (q 4)
    have e : (fun t => gs (Function.update q 4 t) 3) = fun _ => q 3 := by
      funext t
      simp [gs]
    rw [e]
    convert hasDerivAt_const (q 4) (q 3) using 1
    norm_num [JA, Matrix.vecHead, Matrix.vecTail]
  · -- row psi_dot, column x
    show HasDerivAt (fun t => gs (Function.update q 0 t) 4) (JA q 4 0) (q 0)
    have e : (fun t => gs (Function.update q 0 t) 4) = fun _ => q 4 := by
      funext t
      simp [gs]
    rw [e]
    convert hasDerivAt_const (q 0) (q 4) using 1
    norm_num [JA, Matrix.vecHead, Matrix.vecTail]
  · -- row psi_dot, column y
    show HasDerivAt (fun t => gs (Function.update q 1 t) 4) (JA q 4 1) (q 1)
    have e : (fun t => gs (Function.update q 1 t) 4) = fun _ => q 4 := by
      funext t
      simp [gs]
    rw [e]
    convert hasDerivAt_const (q 1) (q 4) using 1
    norm_num [JA, Matrix.vecHead, Matrix.vecTail]
  · -- row psi_dot, column psi
    show HasDerivAt (fun t => gs (Function.update q 2 t) 4) (JA q 4 2) (q 2)
    have e : (fun t => gs (Function.update q 2 t) 4) = fun _ => q 4 := by
      funext t
      simp [gs]
    rw [e]
    convert hasDerivAt_const (q 2) (q 4) using 1
    norm_num [JA, Matrix.vecHead, Matrix.vecTail]
  · -- row psi_dot, column v
    show HasDerivAt (fun t => gs (Function.update q 3 t) 4) (JA q 4 3) (q 3)
    have e : (fun t => gs (Function.update q 3 t) 4) = fun _ => q 4 := by
      funext t
      simp [gs]
    rw [e]
    convert hasDerivAt_const (q 3) (q 4) using 1
    norm_num [JA, Matrix.vecHead, Matrix.vecTail]
  · -- row psi_dot, column psi_dot
    show HasDerivAt (fun t => gs (Function.update q 4 t) 4) (JA q 4 4) (q 4)
    have e : (fun t => gs (Function.update q 4 t) 4) = fun t => t := by
      funext t
      simp [gs]
    rw [e]
    convert hasDerivAt_id (q 4) using 1
    norm_num [JA, Matrix.vecHead, Matrix.vecTail]

/-- C4 (witness): the Jacobian-derivative theorem instantiated at a state
with unit yaw rate, at the position-row, yaw-rate-column entry. -/
theorem C4_jacobian_matches_derivatives_witness :
    (![0, 0, 0, 0, 1] : Fin 5 → ℝ) 4 ≠ 0 ∧
      HasDerivAt (fun t => gs (Function.update (![0, 0, 0, 0, 1] : Fin 5 → ℝ) 4 t) 0)
        (JA ![0, 0, 0, 0, 1] 0 4) ((![0, 0, 0, 0, 1] : Fin 5 → ℝ) 4) :=
  ⟨by simp, C4_jacobian_matches_derivatives ![0, 0, 0, 0, 1] (by simp) 0 4⟩

/-- C5 (witness): the division-guard theorem instantiated on both branches
at concrete inputs. -/
theorem C5_division_guard_witness :
    (branchFlag 0 = 0 ∧
        (predictX 0 ![0, 0, 0, 1, 0] 4 = 0.0000001 ∧ (0.0000001 : ℝ) ≠ 0)) ∧
      (branchFlag 1 ≠ 0 ∧
        predictX 1 ![0, 0, 0, 1, 7] 4 = (![0, 0, 0, 1, 7] : Fin 5 → ℝ) 4) ∧
      ((![0, 0, 0, 1, 7] : Fin 5 → ℝ) 4 ≠ 0 ∧ predictX 1 ![0, 0, 0, 1, 7] 4 ≠ 0) :=
  ⟨⟨by norm_num [branchFlag],
      (C5_division_guard 0 ![0, 0, 0, 1, 0]).1 (by norm_num [branchFlag])⟩,
    ⟨by norm_num [branchFlag],
      (C5_division_guard 1 ![0, 0, 0, 1, 7]).2.1 (by norm_num [branchFlag])⟩,
    ⟨by simp, (C5_division_guard 1 ![0, 0, 0, 1, 7]).2.2 (by simp)⟩⟩

/-! ### C8: what the output record of a step contains -/

lemma runR_records_getD (Rn : Matrix (Fin 4) (Fin 4) ℝ) (l : List EKFInput)
    (init : EKFState) (k : ℕ) (hk : k < l.length) :
    (runR Rn init l).2.getD k noRecord =
      ⟨(runR Rn init (l.take k)).1.x, (l.getD k noInput).Z,
        branchFlag (l.getD k noInput).yawrateRaw, (l.getD k noInput).gps⟩ := by
  induction l generalizing init k with
  | nil => simp at hk
  | cons inp rest ih =>
    cases k with
    | zero => rfl
    | succ k =>
      have hk2 : k < rest.length := by simpa using hk
      show ((runR Rn (stepR Rn init inp).1 rest).2).getD k noRecord = _
      rw [ih (stepR Rn init inp).1 k hk2]
      rfl

/-- C8 (counterexample): the claim says the emitted row contains the
post-correction state of the same step.  In the source the row is written
BEFORE the time update, so it holds the state entering the step: here the
entering state has `x = 0`, the corrected state of the step has
`x = 0.02`, and the emitted row records `0`. -/
theorem C8_counterexample :
    (step ⟨![0, 0, 0, 1, 0], P0⟩ ⟨0, true, ![0.02, 0, 1, 0.0000001]⟩).2.x 0 = 0 ∧
      (step ⟨![0, 0, 0, 1, 0], P0⟩ ⟨0, true, ![0.02, 0, 1, 0.0000001]⟩).1.x 0 = 0.02 ∧
      (0 : ℝ) ≠ 0.02 := by
  have hflag : branchFlag 0 = 0 := by norm_num [branchFlag]
  have hxp : predictX 0 ![0, 0, 0, 1, 0] = ![0.02, 0, 0, 1, 0.0000001] := by
    funext i
    simp only [predictX, if_pos hflag]
    fin_cases i <;> simp [Matrix.vecHead, Matrix.vecTail, dt] <;> norm_num
  refine ⟨rfl, ?_, by norm_num⟩
  show predictX 0 ![0, 0, 0, 1, 0] 0 +
      (kalmanGain R (predictCov P0 (predictX 0 ![0, 0, 0, 1, 0])) (JH true)).mulVec
        (fun j => (![0.02, 0, 1, 0.0000001] : Fin 4 → ℝ) j -
          hx (predictX 0 ![0, 0, 0, 1, 0]) j) 0 = 0.02
  have hy : (fun j => (![0.02, 0, 1, 0.0000001] : Fin 4 → ℝ) j -
      hx (predictX 0 ![0, 0, 0, 1, 0]) j) = (0 : Fin 4 → ℝ) := by
    funext j
    rw [hxp]
    fin_cases j <;> simp [hx, Matrix.vecHead, Matrix.vecTail] <;> norm_num
  rw [hy, Matrix.mulVec_zero, hxp]
  simp

/-- C8 (amended): the output row emitted at step `k` of the filter loop
contains the state estimate ENTERING that step (the post-correction
estimate of step `k-1`; for the first sample, the initial state), together
with the step's raw measurement vector, its degenerate-branch flag, and
its position-fix flag. -/
theorem C8_record_contents (init : EKFState) (l : List EKFInput) (k : ℕ)
    (hk : k < l.length) :
    (run init l).2.getD k noRecord =
      ⟨(run init (l.take k)).1.x, (l.getD k noInput).Z,
        branchFlag (l.getD k noInput).yawrateRaw, (l.getD k noInput).gps⟩ :=
  runR_records_getD R l init k hk

/-- C8 (witness): the record-contents theorem instantiated on a singleton
input list. -/
theorem C8_record_contents_witness :
    0 < [noInput].length ∧
      (run ⟨![0, 0, 0, 0, 0], P0⟩ [noInput]).2.getD 0 noRecord =
        ⟨(run ⟨![0, 0, 0, 0, 0], P0⟩ ([noInput].take 0)).1.x,
          ([noInput].getD 0 noInput).Z,
          branchFlag ([noInput].getD 0 noInput).yawrateRaw,
          ([noInput].getD 0 noInput).gps⟩ :=
  ⟨by norm_num,
    C8_record_contents ⟨![0, 0, 0, 0, 0], P0⟩ [noInput] 0 (by norm_num)⟩

/-! ### C9: no construction-time validation of `R` -/

/-- Measurement noise matrix with a zero diagonal entry (the yaw-rate
variance set to zero), as in the claim's scenario. -/
def Rzero : Matrix (Fin 4) (Fin 4) ℝ :=
  !![5.0 ^ 2, 0.0, 0.0, 0.0;
     0.0, 5.0 ^ 2, 0.0, 0.0;
     0.0, 0.0, 2.0 ^ 2, 0.0;
     0.0, 0.0, 0.0, 0.0]

lemma zero_residual_step (Rn : Matrix (Fin 4) (Fin 4) ℝ) :
    (stepR Rn ⟨![0, 0, 0, 1, 0], P0⟩ ⟨0, true, ![0.02, 0, 1, 0.0000001]⟩).1.x 0
      = 0.02 := by
  have hflag : branchFlag 0 = 0 := by norm_num [branchFlag]
  have hxp : predictX 0 ![0, 0, 0, 1, 0] = ![0.02, 0, 0, 1, 0.0000001] := by
    funext i
    simp only [predictX, if_pos hflag]
    fin_cases i <;> simp [Matrix.vecHead, Matrix.vecTail, dt] <;> norm_num
  show predictX 0 ![0, 0, 0, 1, 0] 0 +
      (kalmanGain Rn (predictCov P0 (predictX 0 ![0, 0, 0, 1, 0])) (JH true)).mulVec
        (fun j => (![0.02, 0, 1, 0.0000001] : Fin 4 → ℝ) j -
          hx (predictX 0 ![0, 0, 0, 1, 0]) j) 0 = 0.02
  have hy : (fun j => (![0.02, 0, 1, 0.0000001] : Fin 4 → ℝ) j -
      hx (predictX 0 ![0, 0, 0, 1, 0]) j) = (0 : Fin 4 → ℝ) := by
    funext j
    rw [hxp]
    fin_cases j <;> simp [hx, Matrix.vecHead, Matrix.vecTail] <;> norm_num
  rw [hy, Matrix.mulVec_zero, hxp]
  simp

/-- C9 (counterexample): the claim says an `R` with a zero diagonal entry
makes construction fail before any filter step, never reaching the
correction.  The source performs no validation at all: with `Rzero` the
loop runs, emits its output row, and the correction update executes,
producing the corrected position `0.02` from the initial `0`. -/
theorem C9_counterexample :
    (runR Rzero ⟨![0, 0, 0, 1, 0], P0⟩
        [⟨0, true, ![0.02, 0, 1, 0.0000001]⟩]).2 ≠ [] ∧
      (runR Rzero ⟨![0, 0, 0, 1, 0], P0⟩
          [⟨0, true, ![0.02, 0, 1, 0.0000001]⟩]).1.x 0 = 0.02 ∧
      (0.02 : ℝ) ≠ 0 := by
  refine ⟨by simp [runR], ?_, by norm_num⟩
  show (stepR Rzero ⟨![0, 0, 0, 1, 0], P0⟩ ⟨0, true, ![0.02, 0, 1, 0.0000001]⟩).1.x 0
      = 0.02
  exact zero_residual_step Rzero

/-- C9 (amended): the source defines `R` as a fixed literal and performs no
validation anywhere: for EVERY measurement-noise matrix, including one with
a zero or negative diagonal entry, each filter step runs unconditionally,
emits its output row, and computes the correction update. -/
theorem C9_no_validation (Rn : Matrix (Fin 4) (Fin 4) ℝ) (s : EKFState)
    (inp : EKFInput) :
    (stepR Rn s inp).2 = ⟨s.x, inp.Z, branchFlag inp.yawrateRaw, inp.gps⟩ ∧
      (runR Rn s [inp]).2.length = 1 :=
  ⟨rfl, rfl⟩

/-! ### C10: without a position fix, the correction ignores `z0`, `z1` -/

lemma JHno_row0 (m : Fin 5) : JH false 0 m = 0 := by
  fin_cases m <;>
    simp [JH, JHno, Matrix.vecHead, Matrix.vecTail] <;> norm_num

lemma JHno_row1 (m : Fin 5) : JH false 1 m = 0 := by
  fin_cases m <;>
    simp [JH, JHno, Matrix.vecHead, Matrix.vecTail] <;> norm_num

lemma noGps_gain_columns (Pp : Matrix (Fin 5) (Fin 5) ℝ) (hPp : Pp.PosSemidef)
    (i : Fin 5) :
    kalmanGain R Pp (JH false) i 0 = 0 ∧ kalmanGain R Pp (JH false) i 1 = 0 := by
  set H := JH false with hH
  have hHPt : (H * Pp * Hᵀ).PosSemidef := by
    have h := hPp.mul_mul_conjTranspose_same H
    rwa [Matrix.conjTranspose_eq_transpose_of_trivial] at h
  have hS : (H * Pp * Hᵀ + R).PosDef := Matrix.PosDef.posSemidef_add hHPt R_posDef
  have hdet : IsUnit (H * Pp * Hᵀ + R).det := hS.det_pos.ne'.isUnit
  have hKS : kalmanGain R Pp H * (H * Pp * Hᵀ + R) = Pp * Hᵀ := by
    rw [kalmanGain, Matrix.mul_assoc, Matrix.nonsing_inv_mul _ hdet, Matrix.mul_one]
  have hS0 : ∀ k : Fin 4, (H * Pp * Hᵀ) k 0 = 0 := by
    intro k
    rw [Matrix.mul_apply]
    apply Finset.sum_eq_zero
    intro m _
    rw [Matrix.transpose_apply, hH, JHno_row0 m, mul_zero]
  have hS1 : ∀ k : Fin 4, (H * Pp * Hᵀ) k 1 = 0 := by
    intro k
    rw [Matrix.mul_apply]
    apply Finset.sum_eq_zero
    intro m _
    rw [Matrix.transpose_apply, hH, JHno_row1 m, mul_zero]
  have hPH0 : (Pp * Hᵀ) i 0 = 0 := by
    rw [Matrix.mul_apply]
    apply Finset.sum_eq_zero
    intro m _
    rw [Matrix.transpose_apply, hH, JHno_row0 m, mul_zero]
  have hPH1 : (Pp * Hᵀ) i 1 = 0 := by
    rw [Matrix.mul_apply]
    apply Finset.sum_eq_zero
    intro m _
    rw [Matrix.transpose_apply, hH, JHno_row1 m, mul_zero]
  constructor
  · have hK := congrFun (congrFun hKS i) 0
    rw [Matrix.mul_apply, Fin.sum_univ_four, hPH0] at hK
    have e0 : (H * Pp * Hᵀ + R) 0 0 = 25 := by
      rw [Matrix.add_apply, hS0 0]
      norm_num [R, Matrix.vecHead, Matrix.vecTail]
    have e1 : (H * Pp * Hᵀ + R) 1 0 = 0 := by
      rw [Matrix.add_apply, hS0 1]
      norm_num [R, Matrix.vecHead, Matrix.vecTail]
    have e2 : (H * Pp * Hᵀ + R) 2 0 = 0 := by
      rw [Matrix.add_apply, hS0 2]
      norm_num [R, Matrix.vecHead, Matrix.vecTail]
    have e3 : (H * Pp * Hᵀ + R) 3 0 = 0 := by
      rw [Matrix.add_apply, hS0 3]
      norm_num [R, Matrix.vecHead, Matrix.vecTail]
    rw [e0, e1, e2, e3] at hK
    simp only [mul_zero, add_zero] at hK
    linarith [hK]
  · have hK := congrFun (congrFun hKS i) 1
    rw [Matrix.mul_apply, Fin.sum_univ_four, hPH1] at hK
    have e0 : (H * Pp * Hᵀ + R) 0 1 = 0 := by
      rw [Matrix.add_apply, hS1 0]
      norm_num [R, Matrix.vecHead, Matrix.vecTail]
    have e1 : (H * Pp * Hᵀ + R) 1 1 = 25 := by
      rw [Matrix.add_apply, hS1 1]
      norm_num [R, Matrix.vecHead, Matrix.vecTail]
    have e2 : (H * Pp * Hᵀ + R) 2 1 = 0 := by
      rw [Matrix.add_apply, hS1 2]
      norm_num [R, Matrix.vecHead, Matrix.vecTail]
    have e3 : (H * Pp * Hᵀ + R) 3 1 = 0 := by
      rw [Matrix.add_apply, hS1 3]
      norm_num [R, Matrix.vecHead, Matrix.vecTail]
    rw [e0, e1, e2, e3] at hK
    simp only [mul_zero, add_zero, zero_add] at hK
    linarith [hK]

/-! ### Concrete gain row for the C5 counterexample -/

lemma noGps_Q_gain_row4 :
    kalmanGain R Q (JH false) 4 0 = 0 ∧ kalmanGain R Q (JH false) 4 1 = 0 ∧
      kalmanGain R Q (JH false) 4 2 = 0 ∧ kalmanGain R Q (JH false) 4 3 = 0.8 := by
  set H := JH false with hH
  have hHPt : (H * Q * Hᵀ).PosSemidef := by
    have h := Q_posSemidef.mul_mul_conjTranspose_same H
    rwa [Matrix.conjTranspose_eq_transpose_of_trivial] at h
  have hSpd : (H * Q * Hᵀ + R).PosDef := Matrix.PosDef.posSemidef_add hHPt R_posDef
  have hdet : IsUnit (H * Q * Hᵀ + R).det := hSpd.det_pos.ne'.isUnit
  have hKS : kalmanGain R Q H * (H * Q * Hᵀ + R) = Q * Hᵀ := by
    rw [kalmanGain, Matrix.mul_assoc, Matrix.nonsing_inv_mul _ hdet, Matrix.mul_one]
  have hcol0 : ∀ k : Fin 4, (H * Q * Hᵀ) k 0 = 0 := by
    intro k
    rw [Matrix.mul_apply]
    apply Finset.sum_eq_zero
    intro m _
    rw [Matrix.transpose_apply, hH, JHno_row0 m, mul_zero]
  have hcol1 : ∀ k : Fin 4, (H * Q * Hᵀ) k 1 = 0 := by
    intro k
    rw [Matrix.mul_apply]
    apply Finset.sum_eq_zero
    intro m _
    rw [Matrix.transpose_apply, hH, JHno_row1 m, mul_zero]
  have hJQ0 : ∀ m : Fin 5, (H * Q) 0 m = 0 := by
    intro m
    rw [Matrix.mul_apply]
    apply Finset.sum_eq_zero
    intro l _
    rw [hH, JHno_row0 l, zero_mul]
  have hJQ1 : ∀ m : Fin 5, (H * Q) 1 m = 0 := by
    intro m
    rw [Matrix.mul_apply]
    apply Finset.sum_eq_zero
    intro l _
    rw [hH, JHno_row1 l, zero_mul]
  have hrow0 : ∀ j : Fin 4, (H * Q * Hᵀ) 0 j = 0 := by
    intro j
    rw [Matrix.mul_apply]
    apply Finset.sum_eq_zero
    intro m _
    rw [hJQ0 m, zero_mul]
  have hrow1 : ∀ j : Fin 4, (H * Q * Hᵀ) 1 j = 0 := by
    intro j
    rw [Matrix.mul_apply]
    apply Finset.sum_eq_zero
    intro m _
    rw [hJQ1 m, zero_mul]
  have h22 : (H * Q * Hᵀ) 2 2 = 0.030976 := by
    rw [hH]
    simp +decide [JH, JHno, Q, Matrix.mul_apply, Matrix.transpose_apply,
      Matrix.diagonal_apply, Fin.sum_univ_four, Fin.sum_univ_five,
      Matrix.vecHead, Matrix.vecTail, Matrix.vecMul, Matrix.dotProduct,
      sVelocity, dt]
    norm_num
  have h23 : (H * Q * Hᵀ) 2 3 = 0 := by
    rw [hH]
    simp +decide [JH, JHno, Q, Matrix.mul_apply, Matrix.transpose_apply,
      Matrix.diagonal_apply, Fin.sum_univ_four, Fin.sum_univ_five,
      Matrix.vecHead, Matrix.vecTail, Matrix.vecMul, Matrix.dotProduct]
    norm_num
  have h32 : (H * Q * Hᵀ) 3 2 = 0 := by
    rw [hH]
    simp +decide [JH, JHno, Q, Matrix.mul_apply, Matrix.transpose_apply,
      Matrix.diagonal_apply, Fin.sum_univ_four, Fin.sum_univ_five,
      Matrix.vecHead, Matrix.vecTail, Matrix.vecMul, Matrix.dotProduct]
    norm_num
  have h33 : (H * Q * Hᵀ) 3 3 = 0.0004 := by
    rw [hH]
    simp +decide [JH, JHno, Q, Matrix.mul_apply, Matrix.transpose_apply,
      Matrix.diagonal_apply, Fin.sum_univ_four, Fin.sum_univ_five,
      Matrix.vecHead, Matrix.vecTail, Matrix.vecMul, Matrix.dotProduct,
      sYaw, dt]
    norm_num
  have hQH0 : (Q * Hᵀ) 4 0 = 0 := by
    rw [Matrix.mul_apply]
    apply Finset.sum_eq_zero
    intro m _
    rw [Matrix.transpose_apply, hH, JHno_row0 m, mul_zero]
  have hQH1 : (Q * Hᵀ) 4 1 = 0 := by
    rw [Matrix.mul_apply]
    apply Finset.sum_eq_zero
    intro m _
    rw [Matrix.transpose_apply, hH, JHno_row1 m, mul_zero]
  have hQH2 : (Q * Hᵀ) 4 2 = 0 := by
    rw [hH]
    simp +decide [JH, JHno, Q, Matrix.mul_apply, Matrix.transpose_apply,
      Matrix.diagonal_apply, Fin.sum_univ_five,
      Matrix.vecHead, Matrix.vecTail, Matrix.vecMul, Matrix.dotProduct]
    norm_num
  have hQH3 : (Q * Hᵀ) 4 3 = 0.0004 := by
    rw [hH]
    simp +decide [JH, JHno, Q, Matrix.mul_apply, Matrix.transpose_apply,
      Matrix.diagonal_apply, Fin.sum_univ_five,
      Matrix.vecHead, Matrix.vecTail, Matrix.vecMul, Matrix.dotProduct,
      sYaw, dt]
    norm_num
  have hR00 : R 0 0 = 25 := by norm_num [R, Matrix.vecHead, Matrix.vecTail]
  have hR11 : R 1 1 = 25 := by norm_num [R, Matrix.vecHead, Matrix.vecTail]
  have hR22 : R 2 2 = 4 := by norm_num [R, Matrix.vecHead, Matrix.vecTail]
  have hR33 : R 3 3 = 0.0001 := by norm_num [R, Matrix.vecHead, Matrix.vecTail]
  have hR10 : R 1 0 = 0 := by norm_num [R, Matrix.vecHead, Matrix.vecTail]
  have hR20 : R 2 0 = 0 := by norm_num [R, Matrix.vecHead, Matrix.vecTail]
  have hR30 : R 3 0 = 0 := by norm_num [R, Matrix.vecHead, Matrix.vecTail]
  have hR01 : R 0 1 = 0 := by norm_num [R, Matrix.vecHead, Matrix.vecTail]
  have hR21 : R 2 1 = 0 := by norm_num [R, Matrix.vecHead, Matrix.vecTail]
  have hR31 : R 3 1 = 0 := by norm_num [R, Matrix.vecHead, Matrix.vecTail]
  have hR02 : R 0 2 = 0 := by norm_num [R, Matrix.vecHead, Matrix.vecTail]
  have hR12 : R 1 2 = 0 := by norm_num [R, Matrix.vecHead, Matrix.vecTail]
  have hR32 : R 3 2 = 0 := by norm_num [R, Matrix.vecHead, Matrix.vecTail]
  have hR03 : R 0 3 = 0 := by norm_num [R, Matrix.vecHead, Matrix.vecTail]
  have hR13 : R 1 3 = 0 := by norm_num [R, Matrix.vecHead, Matrix.vecTail]
  have hR23 : R 2 3 = 0 := by norm_num [R, Matrix.vecHead, Matrix.vecTail]
  have hc0 := congrFun (congrFun hKS 4) 0
  rw [Matrix.mul_apply, Fin.sum_univ_four, hQH0] at hc0
  rw [Matrix.add_apply, hcol0 0, hR00, zero_add] at hc0
  rw [Matrix.add_apply, hcol0 1, hR10, zero_add] at hc0
  rw [Matrix.add_apply, hcol0 2, hR20, zero_add] at hc0
  rw [Matrix.add_apply, hcol0 3, hR30, zero_add] at hc0
  have k0 : kalmanGain R Q H 4 0 = 0 := by
    simp only [mul_zero, add_zero] at hc0
    linarith [hc0]
  have hc1 := congrFun (congrFun hKS 4) 1
  rw [Matrix.mul_apply, Fin.sum_univ_four, hQH1] at hc1
  rw [Matrix.add_apply, hcol1 0, hR01, zero_add] at hc1
  rw [Matrix.add_apply, hcol1 1, hR11, zero_add] at hc1
  rw [Matrix.add_apply, hcol1 2, hR21, zero_add] at hc1
  rw [Matrix.add_apply, hcol1 3, hR31, zero_add] at hc1
  have k1 : kalmanGain R Q H 4 1 = 0 := by
    simp only [mul_zero, add_zero, zero_add] at hc1
    linarith [hc1]
  have hc2 := congrFun (congrFun hKS 4) 2
  rw [Matrix.mul_apply, Fin.sum_univ_four, hQH2] at hc2
  rw [Matrix.add_apply, hrow0 2, hR02, zero_add] at hc2
  rw [Matrix.add_apply, hrow1 2, hR12, zero_add] at hc2
  rw [Matrix.add_apply, h22, hR22] at hc2
  rw [Matrix.add_apply, h32, hR32, zero_add] at hc2
  have k2 : kalmanGain R Q H 4 2 = 0 := by
    rw [k0, k1] at hc2
    simp only [mul_zero, zero_mul, add_zero, zero_add] at hc2
    linarith [hc2]
  have hc3 := congrFun (congrFun hKS 4) 3
  rw [Matrix.mul_apply, Fin.sum_univ_four, hQH3] at hc3
  rw [Matrix.add_apply, hrow0 3, hR03, zero_add] at hc3
  rw [Matrix.add_apply, hrow1 3, hR13, zero_add] at hc3
  rw [Matrix.add_apply, h23, hR23, zero_add] at hc3
  rw [Matrix.add_apply, h33, hR33] at hc3
  have k3 : kalmanGain R Q H 4 3 = 0.8 := by
    rw [k0, k1, k2] at hc3
    simp only [mul_zero, zero_mul, add_zero, zero_add] at hc3
    linarith [hc3]
  exact ⟨k0, k1, k2, k3⟩

/-- C5 (counterexample): two claims fail.  First, after a degenerate-branch
step the NEXT prediction need not see the epsilon yaw rate: from state
`(0,0,0,0,0)` with covariance `0` and measurement `(0,0,0,1)` without a
position fix, the straight-line branch runs (epsilon is substituted), but
the correction moves the yaw-rate estimate to `0.80000002`, which is what
the next prediction sees.  Second, the turning branch can be entered with
an exactly-zero state yaw rate, because the branch tests the MEASURED yaw
rate: with state yaw rate `0` and measured yaw rate `1` the turning branch
is taken and its divisor is exactly `0`. -/
theorem C5_counterexample :
    (step ⟨![0, 0, 0, 0, 0], 0⟩ ⟨0, false, ![0, 0, 0, 1]⟩).2.dstate = 0 ∧
      (step ⟨![0, 0, 0, 0, 0], 0⟩ ⟨0, false, ![0, 0, 0, 1]⟩).1.x 4 = 0.80000002 ∧
      (0.80000002 : ℝ) ≠ 0.0000001 ∧
      (step ⟨![0, 0, 0, 1, 0], P0⟩ ⟨1, false, ![0, 0, 0, 0]⟩).2.dstate = 1 ∧
      (⟨![0, 0, 0, 1, 0], P0⟩ : EKFState).x 4 = 0 := by
  refine ⟨?_, ?_, by norm_num, ?_, rfl⟩
  · show branchFlag 0 = 0
    norm_num [branchFlag]
  · have hflag : branchFlag 0 = 0 := by norm_num [branchFlag]
    have hxp : predictX 0 ![0, 0, 0, 0, 0] = ![0, 0, 0, 0, 0.0000001] := by
      funext i
      simp only [predictX, if_pos hflag]
      fin_cases i <;> simp [Matrix.vecHead, Matrix.vecTail]
    have hPp : predictCov (0 : Matrix (Fin 5) (Fin 5) ℝ)
        (predictX 0 ![0, 0, 0, 0, 0]) = Q := by
      simp [predictCov]
    show predictX 0 ![0, 0, 0, 0, 0] 4 +
        (kalmanGain R (predictCov 0 (predictX 0 ![0, 0, 0, 0, 0])) (JH false)).mulVec
          (fun j => (![0, 0, 0, 1] : Fin 4 → ℝ) j -
            hx (predictX 0 ![0, 0, 0, 0, 0]) j) 4
        = 0.80000002
    rw [hPp]
    obtain ⟨k0, k1, k2, k3⟩ := noGps_Q_gain_row4
    rw [hxp]
    simp only [Matrix.mulVec, Matrix.dotProduct, Fin.sum_univ_four]
    rw [k0, k1, k2, k3]
    simp [hx, Matrix.vecHead, Matrix.vecTail]
    norm_num
  · show branchFlag 1 = 1
    norm_num [branchFlag]

/-- C10 (confirmed): for a step without a position fix (given a symmetric
positive semidefinite entering covariance, the invariant maintained by the
filter), the post-correction state and covariance are independent of the
position components `z0`, `z1` of the measurement vector: the Kalman gain
columns for the position measurements are exactly zero because the `x` and
`y` rows of `Jh` are zeroed and `R` is diagonal. -/
theorem C10_no_gps_independence (s : EKFState) (yr : ℝ) (Za Zb : Fin 4 → ℝ)
    (hP : s.P.PosSemidef) (h2 : Za 2 = Zb 2) (h3 : Za 3 = Zb 3) :
    (step s ⟨yr, false, Za⟩).1.x = (step s ⟨yr, false, Zb⟩).1.x ∧
      (step s ⟨yr, false, Za⟩).1.P = (step s ⟨yr, false, Zb⟩).1.P := by
  have hPp : (predictCov s.P (predictX yr s.x)).PosSemidef :=
    predictCov_posSemidef s.P (predictX yr s.x) hP
  have hK := noGps_gain_columns (predictCov s.P (predictX yr s.x)) hPp
  constructor
  · funext i
    show predictX yr s.x i +
        (kalmanGain R (predictCov s.P (predictX yr s.x)) (JH false)).mulVec
          (fun j => Za j - hx (predictX yr s.x) j) i
      = predictX yr s.x i +
        (kalmanGain R (predictCov s.P (predictX yr s.x)) (JH false)).mulVec
          (fun j => Zb j - hx (predictX yr s.x) j) i
    congr 1
    simp only [Matrix.mulVec, Matrix.dotProduct, Fin.sum_univ_four]
    rw [(hK i).1, (hK i).2, h2, h3]
    ring
  · rfl

/-- C10 (witness): the no-GPS independence theorem instantiated at the
initial covariance `P0` and two measurement vectors differing only in their
position components. -/
theorem C10_no_gps_independence_witness :
    (P0.PosSemidef ∧ (![9, 9, 1, 1] : Fin 4 → ℝ) 2 = (![5, 5, 1, 1] : Fin 4 → ℝ) 2 ∧
        (![9, 9, 1, 1] : Fin 4 → ℝ) 3 = (![5, 5, 1, 1] : Fin 4 → ℝ) 3) ∧
      (step ⟨![0, 0, 0, 1, 0], P0⟩ ⟨0, false, ![9, 9, 1, 1]⟩).1.x =
        (step ⟨![0, 0, 0, 1, 0], P0⟩ ⟨0, false, ![5, 5, 1, 1]⟩).1.x ∧
      (step ⟨![0, 0, 0, 1, 0], P0⟩ ⟨0, false, ![9, 9, 1, 1]⟩).1.P =
        (step ⟨![0, 0, 0, 1, 0], P0⟩ ⟨0, false, ![5, 5, 1, 1]⟩).1.P :=
  ⟨⟨P0_posSemidef, by norm_num, by norm_num⟩,
    C10_no_gps_independence ⟨![0, 0, 0, 1, 0], P0⟩ 0 ![9, 9, 1, 1] ![5, 5, 1, 1]
      P0_posSemidef (by norm_num) (by norm_num)⟩

end CTRV
